import Mathlib

/-!
Verification of the event-broadcast core and readiness orchestration of
grobid-onyx-infra.

The embedding follows the two source files:

* `src/events.py` — `EventManager` with `emit`, `subscribe`, `unsubscribe`,
  `get_history`, `subscriber_count`.  An `asyncio.Queue` is modelled as a
  subscriber record carrying an id (queue object identity; fresh per
  `subscribe`) and a mailbox (the list of queued events).  The single
  broadcaster-wide lock makes every method an atomic state transformer, so
  each method is a pure function on the `EventManager` state.
* `src/main.py` — the readiness probe `check_grobid_ready`, the startup part
  of `lifespan` (start containers, poll up to 180 times, final re-check),
  the SSE subscriber session `sse_events` and the `events_history` endpoint.
  The HTTP response observed by a probe is external input, modelled as an
  oracle `Nat → Option (Nat × String)` giving the response (or a transport
  exception, `none`) of the n-th probe call.
-/

namespace GrobidOnyx

/-- An SSE event as built by `EventManager.emit`:
`{"type": event_type, "data": data, "timestamp": datetime.now().isoformat()}`.
The payload dict is modelled as an association list of strings and the
wall-clock timestamp as a `Nat` supplied by the caller (time is external
input). -/
structure Event where
  type : String
  data : List (String × String)
  timestamp : Nat
deriving DecidableEq, Repr

/-- One subscriber: the identity of its `asyncio.Queue` object (fresh per
`subscribe`) together with the queue's current contents. -/
structure Sub where
  id : Nat
  mailbox : List Event
deriving DecidableEq, Repr

/-- `asyncio.Queue(maxsize=100)` in `EventManager.subscribe`:
`put_nowait` raises `QueueFull` once the mailbox holds 100 events. -/
def maxQueue : Nat := 100

/-- State of `EventManager`: the `subscribers` list, the `history` deque
(`deque(maxlen=max_history)`, default 100), the retained capacity, and the
counter generating fresh queue identities. -/
structure EventManager where
  subscribers : List Sub
  history : List Event
  max_history : Nat
  nextId : Nat
deriving DecidableEq, Repr

/-- `EventManager(max_history)`: no subscribers, empty history. -/
def EventManager.new (max_history : Nat) : EventManager :=
  ⟨[], [], max_history, 0⟩

/-- Python `lst[-n:]` for a nonnegative `n` of a list: the last `n`
elements (all of them when `n` exceeds the length). -/
def takeLast (n : Nat) (l : List α) : List α :=
  l.drop (l.length - n)

/-- Python `lst[start:]` for an arbitrary integer `start`: a negative start
counts from the end (clamped at 0), a nonnegative start drops that many
elements from the front (clamped at the length). -/
def sliceFrom (start : Int) (l : List α) : List α :=
  if start < 0 then l.drop (l.length - (-start).toNat) else l.drop start.toNat

/-- `self.history.append(event)` on a `deque(maxlen=cap)`: append, evicting
the oldest entries beyond the capacity. -/
def pushHistory (cap : Nat) (h : List Event) (e : Event) : List Event :=
  takeLast cap (h ++ [e])

/-- The fan-out loop of `EventManager.emit`: every subscriber whose mailbox
has room gets the event appended (`put_nowait`); a subscriber whose mailbox
is full raises `QueueFull`, is collected in `dead_queues` and removed from
`self.subscribers` at the end of the same call. -/
def emitSubs (ev : Event) (l : List Sub) : List Sub :=
  l.filterMap fun s =>
    if s.mailbox.length < maxQueue then some ⟨s.id, s.mailbox ++ [ev]⟩ else none

/-- `EventManager.emit(event_type, data)` at wall-clock time `ts`: build the
event, append it to history, then notify all subscribers, dropping the full
ones.  The Python method catches `QueueFull` and raises nothing: it is a
total state transformer. -/
def EventManager.emit (σ : EventManager) (t : String)
    (d : List (String × String)) (ts : Nat) : EventManager :=
  ⟨emitSubs ⟨t, d, ts⟩ σ.subscribers,
   pushHistory σ.max_history σ.history ⟨t, d, ts⟩,
   σ.max_history, σ.nextId⟩

/-- `EventManager.subscribe()`: allocate a fresh queue (a fresh identity,
empty mailbox), append it to the subscriber list, and return it. -/
def EventManager.subscribe (σ : EventManager) : Nat × EventManager :=
  (σ.nextId,
   ⟨σ.subscribers ++ [⟨σ.nextId, []⟩], σ.history, σ.max_history, σ.nextId + 1⟩)

/-- Identity test against a given queue identity (Python's `queue in list` /
`list.remove(queue)` compare by object identity). -/
def idIs (i : Nat) : Sub → Bool := fun s => s.id == i

/-- `EventManager.unsubscribe(queue)`: remove the queue from the subscriber
list if present (`if queue in self.subscribers: self.subscribers.remove(queue)`,
which removes the first occurrence); a no-op otherwise. -/
def EventManager.unsubscribe (σ : EventManager) (i : Nat) : EventManager :=
  ⟨σ.subscribers.eraseP (idIs i), σ.history, σ.max_history, σ.nextId⟩

/-- `EventManager.get_history(limit)`: `list(self.history)[-limit:]`.
The method copies the deque and slices it, so it is a pure read; it is
modelled as a pure function of the state. -/
def EventManager.get_history (σ : EventManager) (limit : Int) : List Event :=
  sliceFrom (-limit) σ.history

/-- `EventManager.subscriber_count`. -/
def EventManager.subscriber_count (σ : EventManager) : Nat :=
  σ.subscribers.length

/-- The mailbox of the subscriber whose queue identity is `i`, when that
queue is in the subscriber list (first occurrence, matching Python's
identity-based membership). -/
def mailboxOf (σ : EventManager) (i : Nat) : Option (List Event) :=
  (σ.subscribers.find? (idIs i)).map Sub.mailbox

/-- One `emit` call: event type, payload, wall-clock timestamp. -/
def EmitCall : Type := String × List (String × String) × Nat

/-- The event a given `emit` call constructs. -/
def evOf (c : EmitCall) : Event := ⟨c.1, c.2.1, c.2.2⟩

/-- A sequence of `emit` calls, in order. -/
def emitList (σ : EventManager) (es : List EmitCall) : EventManager :=
  es.foldl (fun σ c => σ.emit c.1 c.2.1 c.2.2) σ

instance : DecidableEq EmitCall := by
  unfold EmitCall; infer_instance

/-! ### `src/main.py`: readiness probe, startup sequence, SSE endpoints -/

/-- Python `str.strip()`: remove leading and trailing whitespace.
(`response.text.strip()` in `check_grobid_ready`.) -/
def pyStrip (s : String) : String :=
  ⟨(((s.data.dropWhile Char.isWhitespace).reverse).dropWhile
      Char.isWhitespace).reverse⟩

/-- `check_grobid_ready()`: issue `GET /api/isalive` and return
`response.status_code == 200 and response.text.strip() == "true"`.
The observed HTTP response is the input: `none` models a raised transport
exception (caught by the bare `except`, yielding `False`), `some (code, body)`
a received response. -/
def check_grobid_ready (resp : Option (Nat × String)) : Bool :=
  match resp with
  | none => false
  | some (code, text) => code == 200 && pyStrip text == "true"

/-- Outcome of the `docker compose up -d` subprocess in `start_containers`:
exit 0; nonzero exit whose stderr mentions `already in use` / `Conflict`
(benign); any other nonzero exit; or `FileNotFoundError`. -/
inductive StartOutcome where
  | success
  | conflict
  | failure
  | composeMissing
deriving DecidableEq, Repr

/-- Which call site issued a given `check_grobid_ready` probe during the
startup sequence: the guard at the top of `start_containers`, the 180-pass
polling loop in `lifespan`, or the final re-check after the loop. -/
inductive ProbePhase where
  | preStart
  | inLoop
  | finalCheck
deriving DecidableEq, Repr

/-- Operational status as reported through `set_status`. -/
inductive Status where
  | working
  | idle
  | error
deriving DecidableEq, Repr

/-- Observable outcome of the startup part of `lifespan`: the final status,
how many times the start command (`docker compose up -d`) was issued, how
many `asyncio.sleep(1)` pauses ran, and the ordered phases of every
`check_grobid_ready` call made. -/
structure LifeResult where
  status : Status
  startCount : Nat
  sleeps : Nat
  trace : List ProbePhase
deriving DecidableEq, Repr

/-- `start_containers()`: first probe readiness; if already ready, return
without running `docker compose`.  Otherwise run it: exit 0 or a benign
conflict return normally (the command was issued once); any other failure
raises `RuntimeError`.  Returns the number of start commands issued. -/
def start_containers (ready0 : Bool) (s : StartOutcome) :
    Except StartOutcome Nat :=
  if ready0 then .ok 0
  else
    match s with
    | .success => .ok 1
    | .conflict => .ok 1
    | .failure => .error .failure
    | .composeMissing => .error .composeMissing

/-- The `for i in range(n)` polling loop of `lifespan`, probing from global
probe index `k`: each pass probes once and breaks on success, otherwise
sleeps one second and continues.  Returns (probes issued, sleeps run). -/
def pollLoop (probe : Nat → Bool) (k : Nat) : Nat → Nat × Nat
  | 0 => (0, 0)
  | n + 1 =>
    if probe k then (1, 0)
    else
      let r := pollLoop probe (k + 1) n
      (r.1 + 1, r.2 + 1)

/-- The startup half of `lifespan`: `start_containers()` (one probe), then
up to 180 polling passes, then a final `check_grobid_ready()` deciding
between `set_status("idle")` and `set_status("error", ...)`.  The oracle
`resp n` is the HTTP response observed by the n-th probe call; `s` is the
outcome of the start command if one is issued.  An exception from
`start_containers` aborts startup (`Except.error`). -/
def lifespanStartup (resp : Nat → Option (Nat × String)) (s : StartOutcome) :
    Except StartOutcome LifeResult :=
  let probe := fun n => check_grobid_ready (resp n)
  match start_containers (probe 0) s with
  | .error e => .error e
  | .ok starts =>
    let r := pollLoop probe 1 180
    let fin := probe (1 + r.1)
    .ok ⟨if fin then .idle else .error, starts, r.2,
         .preStart :: (List.replicate r.1 .inLoop ++ [.finalCheck])⟩

/-- A record yielded by the `sse_events` generator: the initial
`connected` acknowledgement (carrying `event_manager.subscriber_count`),
a broadcast event, or a keep-alive ping. -/
inductive SSERecord where
  | connected (subscribers : Nat)
  | event (e : Event)
  | ping
deriving DecidableEq, Repr

/-- The `/events` generator of `sse_events` for one session: `subscribe()`,
yield the `connected` acknowledgement, then relay each event taken from the
queue in arrival order (timeouts only interleave pings, elided here), and
`unsubscribe` in the `finally` block on disconnect.  `es` are the `emit`
calls that happen during the session; the result is the yielded record
stream and the broadcaster state after disconnect. -/
def sse_events (σ : EventManager) (es : List EmitCall) :
    List SSERecord × EventManager :=
  let sub := σ.subscribe
  let σ2 := emitList sub.2 es
  (SSERecord.connected sub.2.subscriber_count ::
     ((mailboxOf σ2 sub.1).getD []).map SSERecord.event,
   σ2.unsubscribe sub.1)

/-- Response body of `GET /events/history`:
`{"events": get_history(limit), "total": len(self.history), "limit": limit}`. -/
structure HistoryResponse where
  events : List Event
  total : Nat
  limit : Int
deriving DecidableEq, Repr

/-- The `/events/history` endpoint. -/
def events_history (σ : EventManager) (limit : Int) : HistoryResponse :=
  ⟨σ.get_history limit, σ.history.length, limit⟩

/-! ### Suffix-slicing lemmas -/

theorem takeLast_eq_reverse_take (n : Nat) (l : List α) :
    takeLast n l = (l.reverse.take n).reverse := by
  rw [List.take_reverse, List.reverse_reverse, takeLast]

theorem takeLast_eq_self {n : Nat} {l : List α} (h : l.length ≤ n) :
    takeLast n l = l := by
  simp [takeLast, Nat.sub_eq_zero_of_le h]

theorem length_takeLast (n : Nat) (l : List α) :
    (takeLast n l).length = min n l.length := by
  simp only [takeLast, List.length_drop]
  omega

theorem take_append_take (n : Nat) (a b : List α) :
    (a ++ b.take n).take n = (a ++ b).take n := by
  rw [List.take_append_eq_append_take, List.take_append_eq_append_take,
    List.take_take]
  congr 1
  exact congrArg (fun k => List.take k b) (min_eq_left (Nat.sub_le n a.length))

theorem takeLast_takeLast (m n : Nat) (l : List α) :
    takeLast m (takeLast n l) = takeLast (min m n) l := by
  rw [takeLast_eq_reverse_take n l, takeLast_eq_reverse_take m,
    List.reverse_reverse, List.take_take, ← takeLast_eq_reverse_take]

theorem takeLast_append_left (n : Nat) (xs ys : List α) :
    takeLast n (takeLast n xs ++ ys) = takeLast n (xs ++ ys) := by
  have h : (takeLast n xs).reverse = xs.reverse.take n := by
    rw [takeLast_eq_reverse_take, List.reverse_reverse]
  rw [takeLast_eq_reverse_take, List.reverse_append, h, take_append_take,
    ← List.reverse_append, ← takeLast_eq_reverse_take]

/-! ### History evolution under emits -/

theorem emit_history (σ : EventManager) (t : String)
    (d : List (String × String)) (ts : Nat) :
    (σ.emit t d ts).history = pushHistory σ.max_history σ.history ⟨t, d, ts⟩ :=
  rfl

theorem emit_max_history (σ : EventManager) (t : String)
    (d : List (String × String)) (ts : Nat) :
    (σ.emit t d ts).max_history = σ.max_history :=
  rfl

theorem emitList_nil (σ : EventManager) : emitList σ [] = σ := rfl

theorem emitList_cons (σ : EventManager) (c : EmitCall) (es : List EmitCall) :
    emitList σ (c :: es) = emitList (σ.emit c.1 c.2.1 c.2.2) es :=
  rfl

theorem emitList_max_history (es : List EmitCall) :
    ∀ σ : EventManager, (emitList σ es).max_history = σ.max_history := by
  induction es with
  | nil => intro σ; rfl
  | cons c es ih =>
    intro σ
    rw [emitList_cons, ih, emit_max_history]

theorem emitList_history (es : List EmitCall) :
    ∀ σ : EventManager, σ.history.length ≤ σ.max_history →
      (emitList σ es).history
        = takeLast σ.max_history (σ.history ++ es.map evOf) := by
  induction es with
  | nil =>
    intro σ h
    rw [emitList_nil, List.map_nil, List.append_nil, takeLast_eq_self h]
  | cons c es ih =>
    intro σ h
    rw [emitList_cons, ih]
    · rw [emit_max_history, emit_history]
      show takeLast σ.max_history
          (takeLast σ.max_history (σ.history ++ [⟨c.1, c.2.1, c.2.2⟩])
            ++ es.map evOf)
        = takeLast σ.max_history (σ.history ++ (c :: es).map evOf)
      rw [takeLast_append_left, List.append_assoc, List.map_cons,
        List.singleton_append]
      rfl
    · rw [emit_max_history, emit_history]
      show (takeLast σ.max_history (σ.history ++ [⟨c.1, c.2.1, c.2.2⟩])).length
        ≤ σ.max_history
      rw [length_takeLast]
      omega

theorem sliceFrom_neg_of_pos {l : Int} (hl : 0 < l) (x : List α) :
    sliceFrom (-l) x = takeLast l.toNat x := by
  unfold sliceFrom takeLast
  rw [if_pos (by omega), neg_neg]

/-- C1: for every sequence of publish (`emit`) calls and every positive
integer `limit`, `get_history limit` returns exactly the last
`min(limit, max_history)` published events, oldest-first in publish order
(`max_history` being 100 by default).  `get_history` is
`list(self.history)[-limit:]`, a pure read modelled as a pure function of
the state, so it mutates nothing by construction. -/
theorem get_history_last_min (cap : Nat) (es : List EmitCall) (l : Int)
    (hl : 0 < l) :
    (emitList (EventManager.new cap) es).get_history l
      = takeLast (min l.toNat cap) (es.map evOf) := by
  unfold EventManager.get_history
  rw [emitList_history es (EventManager.new cap) (by simp [EventManager.new])]
  rw [sliceFrom_neg_of_pos hl, takeLast_takeLast]
  simp [EventManager.new]

/-- Witness for C1 at a concrete input: capacity 100, two publishes,
limit 1 returns exactly the last event. -/
theorem get_history_last_min_witness :
    (0 : Int) < 1 ∧
      (emitList (EventManager.new 100)
          [("a", [], 0), ("b", [], 1)]).get_history 1
        = takeLast (min (1 : Int).toNat 100)
            ([("a", [], 0), ("b", [], 1)].map evOf) :=
  ⟨by norm_num, get_history_last_min 100 [("a", [], 0), ("b", [], 1)] 1 (by norm_num)⟩

/-! ### Mailbox evolution under emits -/

theorem emitSubs_cons_of_lt {a : Sub} (ev : Event) (l : List Sub)
    (hlt : a.mailbox.length < maxQueue) :
    emitSubs ev (a :: l) = ⟨a.id, a.mailbox ++ [ev]⟩ :: emitSubs ev l := by
  unfold emitSubs
  rw [List.filterMap_cons, if_pos hlt]

theorem emitSubs_cons_of_full {a : Sub} (ev : Event) (l : List Sub)
    (hfull : ¬a.mailbox.length < maxQueue) :
    emitSubs ev (a :: l) = emitSubs ev l := by
  unfold emitSubs
  rw [List.filterMap_cons, if_neg hfull]

theorem mem_emitSubs_id {ev : Event} {l : List Sub} {z : Sub}
    (hz : z ∈ emitSubs ev l) : ∃ x ∈ l, z.id = x.id := by
  unfold emitSubs at hz
  rw [List.mem_filterMap] at hz
  obtain ⟨a, ha, hfa⟩ := hz
  by_cases hlt : a.mailbox.length < maxQueue
  · rw [if_pos hlt] at hfa
    cases hfa
    exact ⟨a, ha, rfl⟩
  · rw [if_neg hlt] at hfa
    cases hfa

theorem idIs_mk (i j : Nat) (mb : List Event) :
    idIs i ⟨j, mb⟩ = (j == i) := rfl

theorem find?_emitSubs_of_lt {i : Nat} {l : List Sub} {s : Sub} (ev : Event)
    (h : l.find? (idIs i) = some s)
    (hlt : s.mailbox.length < maxQueue) :
    (emitSubs ev l).find? (idIs i) = some ⟨s.id, s.mailbox ++ [ev]⟩ := by
  induction l with
  | nil => simp at h
  | cons a l ih =>
    by_cases hpa : idIs i a = true
    · rw [List.find?_cons_of_pos _ hpa] at h
      injection h with h
      subst h
      rw [emitSubs_cons_of_lt ev l hlt]
      exact List.find?_cons_of_pos _ (by rw [idIs_mk]; simpa [idIs] using hpa)
    · rw [List.find?_cons_of_neg _ hpa] at h
      by_cases hq : a.mailbox.length < maxQueue
      · rw [emitSubs_cons_of_lt ev l hq, List.find?_cons_of_neg _
          (by rw [idIs_mk]; simpa [idIs] using hpa)]
        exact ih h
      · rw [emitSubs_cons_of_full ev l hq]
        exact ih h

theorem find?_emitSubs_of_full {i : Nat} {l : List Sub} {s : Sub} (ev : Event)
    (hnd : (l.map Sub.id).Nodup)
    (h : l.find? (idIs i) = some s)
    (hfull : ¬s.mailbox.length < maxQueue) :
    (emitSubs ev l).find? (idIs i) = none := by
  induction l with
  | nil => simp at h
  | cons a l ih =>
    rw [List.map_cons, List.nodup_cons] at hnd
    obtain ⟨hna, hnd⟩ := hnd
    by_cases hpa : idIs i a = true
    · rw [List.find?_cons_of_pos _ hpa] at h
      injection h with h
      subst h
      rw [emitSubs_cons_of_full ev l hfull, List.find?_eq_none]
      intro z hz
      obtain ⟨x, hx, hzx⟩ := mem_emitSubs_id hz
      have hai : a.id = i := by simpa [idIs] using hpa
      show ¬idIs i z = true
      rw [show idIs i z = (z.id == i) from rfl, beq_iff_eq]
      intro hzi
      exact hna (by
        rw [hai, ← hzi, hzx]
        exact List.mem_map_of_mem Sub.id hx)
    · rw [List.find?_cons_of_neg _ hpa] at h
      by_cases hq : a.mailbox.length < maxQueue
      · rw [emitSubs_cons_of_lt ev l hq, List.find?_cons_of_neg _
          (by rw [idIs_mk]; simpa [idIs] using hpa)]
        exact ih hnd h
      · rw [emitSubs_cons_of_full ev l hq]
        exact ih hnd h

theorem mailboxOf_emit_lt {σ : EventManager} {i : Nat} {m : List Event}
    (hi : mailboxOf σ i = some m) (hlt : m.length < maxQueue)
    (t : String) (d : List (String × String)) (ts : Nat) :
    mailboxOf (σ.emit t d ts) i = some (m ++ [⟨t, d, ts⟩]) := by
  unfold mailboxOf at hi ⊢
  obtain ⟨s, hs, hm⟩ : ∃ s, σ.subscribers.find? (idIs i) = some s
      ∧ s.mailbox = m := by
    cases hfind : σ.subscribers.find? (idIs i) with
    | none => rw [hfind] at hi; simp at hi
    | some s =>
      rw [hfind] at hi
      exact ⟨s, rfl, by simpa using hi⟩
  subst hm
  rw [show (σ.emit t d ts).subscribers = emitSubs ⟨t, d, ts⟩ σ.subscribers
      from rfl,
    find?_emitSubs_of_lt _ hs hlt]
  rfl

theorem mailboxOf_emit_full {σ : EventManager} {i : Nat} {m : List Event}
    (hnd : (σ.subscribers.map Sub.id).Nodup)
    (hi : mailboxOf σ i = some m) (hfull : maxQueue ≤ m.length)
    (t : String) (d : List (String × String)) (ts : Nat) :
    mailboxOf (σ.emit t d ts) i = none := by
  unfold mailboxOf at hi ⊢
  obtain ⟨s, hs, hm⟩ : ∃ s, σ.subscribers.find? (idIs i) = some s
      ∧ s.mailbox = m := by
    cases hfind : σ.subscribers.find? (idIs i) with
    | none => rw [hfind] at hi; simp at hi
    | some s =>
      rw [hfind] at hi
      exact ⟨s, rfl, by simpa using hi⟩
  subst hm
  rw [show (σ.emit t d ts).subscribers = emitSubs ⟨t, d, ts⟩ σ.subscribers
      from rfl,
    find?_emitSubs_of_full _ hnd hs (by omega)]
  rfl

theorem mailboxOf_emitList {i : Nat} (es : List EmitCall) :
    ∀ {σ : EventManager} {m : List Event}, mailboxOf σ i = some m →
      m.length + es.length ≤ maxQueue →
      mailboxOf (emitList σ es) i = some (m ++ es.map evOf) := by
  induction es with
  | nil =>
    intro σ m h _
    simpa using h
  | cons c es ih =>
    intro σ m h hlen
    rw [List.length_cons] at hlen
    rw [emitList_cons]
    have h1 := mailboxOf_emit_lt h (by omega) c.1 c.2.1 c.2.2
    have hl2 : (m ++ [(⟨c.1, c.2.1, c.2.2⟩ : Event)]).length + es.length
        ≤ maxQueue := by
      simp only [List.length_append, List.length_cons, List.length_nil]
      omega
    have h2 := ih h1 hl2
    rw [h2, List.append_assoc]
    rfl

/-! ### Fresh subscriptions -/

theorem mailboxOf_subscribe_self (σ : EventManager)
    (hfresh : ∀ s ∈ σ.subscribers, s.id ≠ σ.nextId) :
    mailboxOf σ.subscribe.2 σ.subscribe.1 = some [] := by
  unfold mailboxOf EventManager.subscribe
  have h1 : σ.subscribers.find? (idIs σ.nextId) = none := by
    rw [List.find?_eq_none]
    intro x hx
    simpa [idIs] using hfresh x hx
  show ((σ.subscribers ++ [(⟨σ.nextId, []⟩ : Sub)]).find?
      (idIs σ.nextId)).map Sub.mailbox = some []
  rw [List.find?_append, h1, List.find?_cons_of_pos _
    (by rw [idIs_mk]; simp)]
  rfl

/-- C3: a subscriber registered via `subscribe` before a sequence of
publishes whose total never fills its mailbox afterwards holds exactly those
published events, in publish order — no duplicates, and none of the events
published before its subscription.  The freshness hypothesis (every
registered queue identity differs from the next fresh one) holds for every
state reachable from `EventManager.new`, mirroring Python object identity. -/
theorem subscriber_receives_all (σ : EventManager) (es : List EmitCall)
    (hfresh : ∀ s ∈ σ.subscribers, s.id ≠ σ.nextId)
    (hlen : es.length ≤ maxQueue) :
    mailboxOf (emitList σ.subscribe.2 es) σ.subscribe.1
      = some (es.map evOf) := by
  have h0 := mailboxOf_subscribe_self σ hfresh
  have h1 := mailboxOf_emitList es h0 (by simpa using hlen)
  simpa using h1

/-- Witness for C3: a fresh manager, one subscriber, two publishes. -/
theorem subscriber_receives_all_witness :
    mailboxOf (emitList (EventManager.new 100).subscribe.2
        [("a", [], 0), ("b", [], 1)]) (EventManager.new 100).subscribe.1
      = some ([("a", [], 0), ("b", [], 1)].map evOf) :=
  subscriber_receives_all (EventManager.new 100) [("a", [], 0), ("b", [], 1)]
    (by intro s hs; simp [EventManager.new] at hs) (by decide)

/-- C2: a publish (`emit`) against a subscriber whose mailbox is full never
raises and completes (in the source the `QueueFull` from `put_nowait` is
caught, so `emit` is a total state transformer — total by construction
here); that subscriber is removed from the active set within the same call,
the event is still appended to history, and every other subscriber with
free capacity still receives the event.  Queue identities of reachable
states are pairwise distinct (fresh object per `subscribe`), which is the
`Nodup` hypothesis. -/
theorem emit_drops_full_subscriber (σ : EventManager) (t : String)
    (d : List (String × String)) (ts : Nat) (i j : Nat) (m m' : List Event)
    (hnd : (σ.subscribers.map Sub.id).Nodup)
    (hi : mailboxOf σ i = some m) (hfull : maxQueue ≤ m.length)
    (hj : mailboxOf σ j = some m') (hjlt : m'.length < maxQueue) :
    mailboxOf (σ.emit t d ts) i = none
    ∧ (σ.emit t d ts).history = pushHistory σ.max_history σ.history ⟨t, d, ts⟩
    ∧ mailboxOf (σ.emit t d ts) j = some (m' ++ [⟨t, d, ts⟩]) :=
  ⟨mailboxOf_emit_full hnd hi hfull t d ts, rfl, mailboxOf_emit_lt hj hjlt t d ts⟩

/-- A broadcaster with one overfull subscriber (mailbox at capacity 100)
and one empty subscriber. -/
def fullSubState : EventManager :=
  ⟨[⟨0, List.replicate 100 ⟨"e", [], 0⟩⟩, ⟨1, []⟩], [], 100, 2⟩

/-- Witness for C2: emitting into `fullSubState` evicts subscriber 0,
appends to history, and delivers to subscriber 1. -/
theorem emit_drops_full_subscriber_witness :
    mailboxOf (fullSubState.emit "n" [] 5) 0 = none
    ∧ (fullSubState.emit "n" [] 5).history
        = pushHistory fullSubState.max_history fullSubState.history ⟨"n", [], 5⟩
    ∧ mailboxOf (fullSubState.emit "n" [] 5) 1 = some ([] ++ [⟨"n", [], 5⟩]) :=
  emit_drops_full_subscriber fullSubState "n" [] 5 0 1
    (List.replicate 100 ⟨"e", [], 0⟩) [] (by decide) (by decide)
    (by decide) (by decide) (by decide)

/-! ### Unsubscribe -/

theorem eraseP_eraseP_of_nodup {l : List Sub} {i : Nat}
    (hnd : (l.map Sub.id).Nodup) :
    (l.eraseP (idIs i)).eraseP (idIs i) = l.eraseP (idIs i) := by
  induction l with
  | nil => rfl
  | cons a l ih =>
    rw [List.map_cons, List.nodup_cons] at hnd
    obtain ⟨hna, hnd⟩ := hnd
    by_cases hpa : idIs i a = true
    · rw [List.eraseP_cons_of_pos hpa]
      apply List.eraseP_of_forall_not
      intro x hx
      have hai : a.id = i := by simpa [idIs] using hpa
      show ¬idIs i x = true
      rw [show idIs i x = (x.id == i) from rfl, beq_iff_eq]
      intro hxi
      exact hna (by
        rw [hai, ← hxi]
        exact List.mem_map_of_mem Sub.id hx)
    · rw [List.eraseP_cons_of_neg hpa, List.eraseP_cons_of_neg hpa, ih hnd]

theorem find?_eraseP_ne {l : List Sub} {i j : Nat} (hij : j ≠ i) :
    (l.eraseP (idIs i)).find? (idIs j) = l.find? (idIs j) := by
  induction l with
  | nil => rfl
  | cons a l ih =>
    by_cases hpa : idIs i a = true
    · rw [List.eraseP_cons_of_pos hpa]
      have hai : a.id = i := by simpa [idIs] using hpa
      have haj : ¬idIs j a = true := by
        rw [show idIs j a = (a.id == j) from rfl, beq_iff_eq, hai]
        exact fun h => hij h.symm
      rw [List.find?_cons_of_neg _ haj]
    · rw [List.eraseP_cons_of_neg hpa]
      by_cases haj : idIs j a = true
      · rw [List.find?_cons_of_pos _ haj, List.find?_cons_of_pos _ haj]
      · rw [List.find?_cons_of_neg _ haj, List.find?_cons_of_neg _ haj, ih]

theorem unsubscribe_unknown (σ : EventManager) (k : Nat)
    (hk : ∀ s ∈ σ.subscribers, s.id ≠ k) :
    σ.unsubscribe k = σ := by
  unfold EventManager.unsubscribe
  rw [List.eraseP_of_forall_not (by
    intro a ha
    show ¬idIs k a = true
    simpa [idIs] using hk a ha)]

/-- C9: `unsubscribe` is idempotent and isolated: removing the same channel
twice equals removing it once, removing it leaves every other subscriber's
membership and mailbox untouched, and removing a never-registered handle is
a no-op.  The Python method only runs `list.remove` guarded by a membership
test, so it never raises — total by construction here.  Distinct queue
identities (`Nodup`) hold in every reachable state. -/
theorem unsubscribe_idempotent (σ : EventManager) (i j k : Nat)
    (hnd : (σ.subscribers.map Sub.id).Nodup) (hj : j ≠ i)
    (hk : ∀ s ∈ σ.subscribers, s.id ≠ k) :
    (σ.unsubscribe i).unsubscribe i = σ.unsubscribe i
    ∧ mailboxOf (σ.unsubscribe i) j = mailboxOf σ j
    ∧ σ.unsubscribe k = σ := by
  refine ⟨?_, ?_, unsubscribe_unknown σ k hk⟩
  · show (⟨((σ.subscribers.eraseP (idIs i)).eraseP (idIs i)), σ.history,
        σ.max_history, σ.nextId⟩ : EventManager) = σ.unsubscribe i
    rw [eraseP_eraseP_of_nodup hnd]
    rfl
  · show ((σ.subscribers.eraseP (idIs i)).find? (idIs j)).map Sub.mailbox
      = (σ.subscribers.find? (idIs j)).map Sub.mailbox
    rw [find?_eraseP_ne hj]

/-- A broadcaster with two registered subscribers. -/
def twoSubsState : EventManager := ⟨[⟨1, []⟩, ⟨2, []⟩], [], 100, 3⟩

/-- Witness for C9: double removal of channel 1, isolation of channel 2,
and the no-op removal of the unknown handle 5, all on `twoSubsState`. -/
theorem unsubscribe_idempotent_witness :
    (twoSubsState.unsubscribe 1).unsubscribe 1 = twoSubsState.unsubscribe 1
    ∧ mailboxOf (twoSubsState.unsubscribe 1) 2 = mailboxOf twoSubsState 2
    ∧ twoSubsState.unsubscribe 5 = twoSubsState :=
  unsubscribe_idempotent twoSubsState 1 2 5 (by decide) (by decide) (by decide)

/-! ### SSE session stream -/

/-- A broadcaster that has already recorded one event in its history and
has no subscribers: the state a late client connects to. -/
def histState : EventManager := (EventManager.new 100).emit "extraction_start" [] 0

/-- C5 counterexample: connecting to a broadcaster whose history holds one
event yields only the connection acknowledgement — the generator in
`sse_events` never reads the history, so no replay of the recent history
buffer follows the acknowledgement, contradicting the claim. -/
theorem sse_no_history_replay_cex :
    (sse_events histState []).1 = [SSERecord.connected 1]
    ∧ histState.history = [⟨"extraction_start", [], 0⟩]
    ∧ SSERecord.event ⟨"extraction_start", [], 0⟩ ∉ (sse_events histState []).1 := by
  refine ⟨by decide, by decide, by decide⟩

/-- C5 amended: the outbound stream begins with the
connection-acknowledgement record (carrying the post-subscribe subscriber
count) followed directly by the live feed, with no replay of the history
buffer in between. -/
theorem sse_stream_ack_then_live (σ : EventManager) (es : List EmitCall)
    (hfresh : ∀ s ∈ σ.subscribers, s.id ≠ σ.nextId)
    (hlen : es.length ≤ maxQueue) :
    (sse_events σ es).1
      = SSERecord.connected (σ.subscribers.length + 1)
          :: es.map (fun c => SSERecord.event (evOf c)) := by
  have h0 := mailboxOf_subscribe_self σ hfresh
  have h1 := mailboxOf_emitList es h0 (by simpa using hlen)
  show SSERecord.connected σ.subscribe.2.subscriber_count ::
      ((mailboxOf (emitList σ.subscribe.2 es) σ.subscribe.1).getD []).map
        SSERecord.event
    = _
  rw [h1]
  simp [EventManager.subscriber_count, EventManager.subscribe]

/-- Witness for C5's amended claim: a fresh manager, one live emit. -/
theorem sse_stream_ack_then_live_witness :
    (sse_events (EventManager.new 100) [("a", [], 0)]).1
      = SSERecord.connected ((EventManager.new 100).subscribers.length + 1)
          :: [("a", [], 0)].map (fun c => SSERecord.event (evOf c)) :=
  sse_stream_ack_then_live (EventManager.new 100) [("a", [], 0)]
    (by intro s hs; simp [EventManager.new] at hs) (by decide)

/-! ### Readiness probe -/

/-- C6 counterexample: a `200` response whose body is `"true\n"` makes
`check_grobid_ready` return `true` (the code strips the body first), though
the body is not equal to the literal `"true"` — the claimed `iff` fails. -/
theorem check_grobid_ready_strip_cex :
    check_grobid_ready (some (200, "true\n")) = true ∧ "true\n" ≠ "true" := by
  refine ⟨by decide, by decide⟩

/-- C6 amended: `check_grobid_ready` returns `true` iff a response was
received (no transport exception) with status 200 and a body equal to
`"true"` after stripping surrounding whitespace; it returns `false` on
every other response and on every raised transport exception (`none`),
never propagating the exception — the bare `except` makes it total. -/
theorem check_grobid_ready_iff (resp : Option (Nat × String)) :
    check_grobid_ready resp = true
      ↔ ∃ code text, resp = some (code, text) ∧ code = 200
          ∧ pyStrip text = "true" := by
  cases resp with
  | none => simp [check_grobid_ready]
  | some p =>
    cases p with
    | mk code text =>
      simp only [check_grobid_ready, Bool.and_eq_true, beq_iff_eq,
        Option.some.injEq, Prod.mk.injEq]
      constructor
      · rintro ⟨h1, h2⟩
        exact ⟨code, text, ⟨rfl, rfl⟩, h1, h2⟩
      · rintro ⟨c, t, ⟨rfl, rfl⟩, h1, h2⟩
        exact ⟨h1, h2⟩

/-! ### History slicing at zero and negative limits -/

/-- C10 counterexample: with one retained event, `get_history (-1)` is
`list(history)[1:] = []` — empty even though the history is not — refuting
the claim that no negative limit yields an empty list. -/
theorem get_history_neg_empty_cex :
    ((EventManager.new 100).emit "x" [] 0).get_history (-1) = []
    ∧ ((EventManager.new 100).emit "x" [] 0).history = [⟨"x", [], 0⟩] := by
  refine ⟨by decide, by decide⟩

/-- C10 amended: `get_history 0` returns every retained event (the slice
`[-0:]` is the whole list); a negative limit `-n` returns the retained
events with the first `n` dropped (`[n:]`), which is empty whenever `n` is
at least the number retained. -/
theorem get_history_zero_and_neg (σ : EventManager) (n : Nat) :
    σ.get_history 0 = σ.history
    ∧ σ.get_history (-(n : Int)) = σ.history.drop n := by
  constructor
  · simp [EventManager.get_history, sliceFrom]
  · unfold EventManager.get_history sliceFrom
    rw [neg_neg, if_neg (by omega)]
    simp

/-! ### History endpoint total -/

/-- 101 publishes of distinct events. -/
def manyEmits : List EmitCall := (List.range 101).map (fun n => ("e", [], n))

theorem events_history_total_def (σ : EventManager) (l : Int) :
    (events_history σ l).total = σ.history.length := rfl

/-- C8 counterexample: after publishing 101 events into the default
100-capacity manager, `events_history` reports `total = 100` — the number
retained, not the number of all recorded events (101) the claim demands. -/
theorem events_history_total_cex :
    (events_history (emitList (EventManager.new 100) manyEmits) 50).total = 100
    ∧ manyEmits.length = 101 := by
  constructor
  · rw [events_history_total_def,
      emitList_history manyEmits (EventManager.new 100)
        (by simp [EventManager.new]), length_takeLast]
    simp [manyEmits, EventManager.new]
  · simp [manyEmits]

/-- C8 amended: the endpoint's `total` is `len(self.history)`, the number
of currently retained events — `min(capacity, published)` — rather than
the number of all recorded events. -/
theorem events_history_total_retained (cap : Nat) (es : List EmitCall)
    (l : Int) :
    (events_history (emitList (EventManager.new cap) es) l).total
      = min cap es.length := by
  rw [events_history_total_def,
    emitList_history es (EventManager.new cap) (by simp [EventManager.new]),
    length_takeLast]
  simp [EventManager.new]

/-! ### Lifespan startup -/

theorem pollLoop_const_false (probe : Nat → Bool)
    (h : ∀ n, probe n = false) :
    ∀ k n, pollLoop probe k n = (n, n) := by
  intro k n
  induction n generalizing k with
  | zero => rfl
  | succ n ih =>
    unfold pollLoop
    rw [h k]
    simp [ih (k + 1)]

theorem pollLoop_first_true (probe : Nat → Bool) (k n : Nat)
    (h : probe k = true) :
    pollLoop probe k (n + 1) = (1, 0) := by
  unfold pollLoop
  rw [h]
  simp

theorem lifespanStartup_of_never_ready (resp : Nat → Option (Nat × String))
    (s : StartOutcome)
    (hprobe : ∀ n, check_grobid_ready (resp n) = false)
    (hs : s = .success ∨ s = .conflict) :
    lifespanStartup resp s
      = .ok ⟨.error, 1, 180,
          .preStart :: (List.replicate 180 .inLoop ++ [.finalCheck])⟩ := by
  have hp : pollLoop (fun _ : Nat => false) 1 180 = (180, 180) :=
    pollLoop_const_false _ (fun _ => rfl) 1 180
  have hsc : start_containers false s = .ok 1 := by
    rcases hs with h | h <;> subst h <;> rfl
  simp only [lifespanStartup, hprobe]
  rw [hsc, hp]
  rfl

/-- C4 counterexample: with a probe that never succeeds and a successful
start command, startup ends in the error status, but the probe trace is
180 in-loop probes FOLLOWED by one more probe (the final re-check of
`lifespan`), so a probe is issued after the polling loop's last in-loop
probe, contradicting the claim. -/
theorem lifespan_post_loop_probe_cex :
    lifespanStartup (fun _ => none) .success
      = .ok ⟨.error, 1, 180,
          .preStart :: (List.replicate 180 .inLoop ++ [.finalCheck])⟩
    ∧ (ProbePhase.preStart :: (List.replicate 180 ProbePhase.inLoop
        ++ [ProbePhase.finalCheck])).count ProbePhase.finalCheck = 1 := by
  constructor
  · exact lifespanStartup_of_never_ready (fun _ => none) .success
      (fun _ => rfl) (.inl rfl)
  · decide

/-- C4 amended: if the readiness probe never succeeds during the 180
one-second polling intervals, the controller ends in the error (`Failed`)
status after 180 sleeps; exactly one further probe — the final re-check
after the loop — is issued after the loop's last in-loop probe, and no
probes occur after it. -/
theorem lifespan_never_ready (resp : Nat → Option (Nat × String))
    (s : StartOutcome)
    (hprobe : ∀ n, check_grobid_ready (resp n) = false)
    (hs : s = .success ∨ s = .conflict) :
    lifespanStartup resp s
      = .ok ⟨.error, 1, 180,
          .preStart :: (List.replicate 180 .inLoop ++ [.finalCheck])⟩ :=
  lifespanStartup_of_never_ready resp s hprobe hs

/-- Witness for C4's amended claim: the all-failures oracle with a benign
conflict outcome of the start command. -/
theorem lifespan_never_ready_witness :
    lifespanStartup (fun _ => none) .conflict
      = .ok ⟨.error, 1, 180,
          .preStart :: (List.replicate 180 .inLoop ++ [.finalCheck])⟩ :=
  lifespan_never_ready (fun _ => none) .conflict (fun _ => rfl) (.inr rfl)

/-- C7: if the backing service already reports ready when
`start_containers` runs, no start command is issued (0 start actions, in
particular no more than one), and the controller reaches the ready (idle)
status with zero sleeps — within one probe interval of wait; the polling
loop's sole probe succeeds immediately. -/
theorem lifespan_already_ready (resp : Nat → Option (Nat × String))
    (s : StartOutcome)
    (h : ∀ n, check_grobid_ready (resp n) = true) :
    lifespanStartup resp s
      = .ok ⟨.idle, 0, 0,
          .preStart :: (List.replicate 1 .inLoop ++ [.finalCheck])⟩ := by
  have hp : pollLoop (fun _ : Nat => true) 1 180 = (1, 0) :=
    pollLoop_first_true _ 1 179 rfl
  have hsc : start_containers true s = .ok 0 := rfl
  simp only [lifespanStartup, h]
  rw [hsc, hp]
  rfl

/-- Witness for C7: an always-ready backend; even a start command that
would fail is never issued. -/
theorem lifespan_already_ready_witness :
    lifespanStartup (fun _ => some (200, "true")) .failure
      = .ok ⟨.idle, 0, 0,
          .preStart :: (List.replicate 1 .inLoop ++ [.finalCheck])⟩ :=
  lifespan_already_ready (fun _ => some (200, "true")) .failure
    (fun _ => rfl)

end GrobidOnyx
